import Mathlib

/-!
Shallow embedding of the `tmn` numeric kernel (src/lib.rs, src/complex/mod.rs,
src/quaternion/mod.rs).  `f32` values are modelled as real numbers; Rust's
`powf` is modelled by real exponentiation (`Real.rpow`) and `atan2` by the
argument of the corresponding complex number.  The all-NaN sentinel that
`Nums::normalize` returns for a zero axis is modelled by `Option.none`, and a
firing `assert!` in `Nums::rot` by the whole call returning `none`.
-/

namespace Tmn

noncomputable section

/-- Rust `x.powf(y)`, modelled by real `rpow`. -/
def powf (x y : ℝ) : ℝ := x ^ y

/-- Rust `y.atan2(x)`, modelled as the argument of the complex number `x + y*I`. -/
def atan2 (y x : ℝ) : ℝ := Complex.arg ⟨x, y⟩

/-- Modelled from the spec: the repository's `cassette` module (the coefficient
mask helper `cassette::cassette::eq`) is not under src/; §4.1 of the spec fixes
its contract: `is_set(c, idx) == ((c >> idx) & 1) != 0`.  The `u8` mask is
modelled as `Nat`. -/
def cassette.eq (c idx : Nat) : Bool := ((c >>> idx) &&& 1) != 0

/-- src/complex/mod.rs: `pub struct CNum {r:f32, i:f32}`. -/
structure CNum where
  r : ℝ
  i : ℝ

namespace complex

/-- src/complex/mod.rs: `pub const R:u8 = 1`. -/
def R : Nat := 1

/-- src/complex/mod.rs: `pub const I:u8 = 2`. -/
def I : Nat := 2

end complex

namespace CNum

/-- `CNum::make_zero`. -/
def make_zero : CNum := ⟨0, 0⟩

/-- `CNum::make`. -/
def make (r i : ℝ) : CNum := ⟨r, i⟩

/-- `CNum::get`. -/
def get (c : CNum) : ℝ × ℝ := (c.r, c.i)

/-- `CNum::conj`. -/
def conj (c : CNum) : CNum := ⟨c.r, -c.i⟩

/-- `CNum::add_r`. -/
def add_r (c : CNum) (v : ℝ) : CNum := ⟨c.r + v, c.i⟩

/-- `CNum::add_c`. -/
def add_c (c : CNum) (v : CNum) : CNum := ⟨c.r + v.r, c.i + v.i⟩

/-- `CNum::mult_r`. -/
def mult_r (c : CNum) (v : ℝ) : CNum := ⟨c.r * v, c.i * v⟩

/-- `CNum::mult_c`: `let (r, i) = self.get(); CNum{r: r*v.r - i*v.i, i: r*v.i + v.r*i}`. -/
def mult_c (c : CNum) (v : CNum) : CNum :=
  let (r, i) := c.get
  ⟨r * v.r - i * v.i, r * v.i + v.r * i⟩

/-- `CNum::modl`: `self.mult_c(self.conj()).r.powf(0.5)`. -/
def modl (c : CNum) : ℝ := powf (c.mult_c c.conj).r 0.5

/-- `CNum::div_c`. -/
def div_c (c : CNum) (v : CNum) : CNum :=
  let divisor := (v.mult_c v.conj).r
  let numerator := c.mult_c v.conj
  numerator.mult_r (1 / divisor)

/-- `CNum::pow`. -/
def pow (c : CNum) (v : ℝ) : CNum :=
  ⟨powf c.modl v * Real.cos (v * atan2 c.i c.r),
   powf c.modl v * Real.sin (v * atan2 c.i c.r)⟩

/-- `CNum::set`. -/
def set (c : CNum) (m : Nat) (v : ℝ) : CNum :=
  let ret := c
  let ret := if cassette.eq m 0 then { ret with r := v } else ret
  let ret := if cassette.eq m 1 then { ret with i := v } else ret
  ret

end CNum

/-- src/quaternion/mod.rs: `pub struct QNum{r:f32, i:f32, j:f32, k:f32}`. -/
structure QNum where
  r : ℝ
  i : ℝ
  j : ℝ
  k : ℝ

namespace quaternion

/-- src/quaternion/mod.rs: `pub const R:u8 = 1`. -/
def R : Nat := 1

/-- src/quaternion/mod.rs: `pub const I:u8 = 2`. -/
def I : Nat := 2

/-- src/quaternion/mod.rs: `pub const J:u8 = 4`. -/
def J : Nat := 4

/-- src/quaternion/mod.rs: `pub const K:u8 = 8`. -/
def K : Nat := 8

end quaternion

namespace QNum

/-- `QNum::make_zero`. -/
def make_zero : QNum := ⟨0, 0, 0, 0⟩

/-- `QNum::make_from_r`. -/
def make_from_r (r i j k : ℝ) : QNum := ⟨r, i, j, k⟩

/-- `QNum::make_from_c`: `w1` supplies `r`/`i`, `w2` supplies `j`/`k`. -/
def make_from_c (w1 w2 : CNum) : QNum :=
  let (r, i) := w1.get
  let (j, k) := w2.get
  ⟨r, i, j, k⟩

/-- `QNum::make_from_a`: `r = cos(ang/2)`, `(i,j,k) = sin(ang/2) * vec`. -/
def make_from_a (ang : ℝ) (vec : ℝ × ℝ × ℝ) : QNum :=
  ⟨Real.cos (ang / 2),
   Real.sin (ang / 2) * vec.1,
   Real.sin (ang / 2) * vec.2.1,
   Real.sin (ang / 2) * vec.2.2⟩

/-- `QNum::get`. -/
def get (q : QNum) : ℝ × ℝ × ℝ × ℝ := (q.r, q.i, q.j, q.k)

/-- `QNum::conj`: negates `i`, `j`, `k`. -/
def conj (q : QNum) : QNum := ⟨q.r, -q.i, -q.j, -q.k⟩

/-- `QNum::mult_q`: the Hamilton product, `self` on the left. -/
def mult_q (q : QNum) (v : QNum) : QNum :=
  let (x1, y1, u1, v1) := q.get
  let (x2, y2, u2, v2) := v.get
  ⟨x1 * x2 - y1 * y2 - u1 * u2 - v1 * v2,
   x1 * y2 + y1 * x2 + u1 * v2 - v1 * u2,
   x1 * u2 - y1 * v2 + u1 * x2 + v1 * y2,
   x1 * v2 + y1 * u2 - u1 * y2 + v1 * x2⟩

/-- `QNum::norm`: `self.mult_q(self.conj()).r`. -/
def norm (q : QNum) : ℝ := (q.mult_q q.conj).r

/-- `QNum::modl`: `self.norm().powf(0.5)`. -/
def modl (q : QNum) : ℝ := powf q.norm 0.5

/-- `QNum::add_r`. -/
def add_r (q : QNum) (v : ℝ) : QNum := ⟨q.r + v, q.i, q.j, q.k⟩

/-- `QNum::add_c`. -/
def add_c (q : QNum) (v : CNum) : QNum :=
  let (r, i) := v.get
  ⟨q.r + r, q.i + i, q.j, q.k⟩

/-- `QNum::add_q`. -/
def add_q (q : QNum) (v : QNum) : QNum := ⟨q.r + v.r, q.i + v.i, q.j + v.j, q.k + v.k⟩

/-- `QNum::mult_r`. -/
def mult_r (q : QNum) (v : ℝ) : QNum := ⟨q.r * v, q.i * v, q.j * v, q.k * v⟩

/-- `QNum::mult_c`: the product of the quaternion `self` (left) with the
complex `v` treated as a quaternion with `j = k = 0` (right). -/
def mult_c (q : QNum) (v : CNum) : QNum :=
  let (r, i) := v.get
  let (r1, i1, j1, k1) := q.get
  ⟨r1 * r - i1 * i, i1 * r + r1 * i, j1 * r + k1 * i, k1 * r - j1 * i⟩

/-- `QNum::inv`: `self.conj().mult_r(1/self.norm())`. -/
def inv (q : QNum) : QNum := q.conj.mult_r (1 / q.norm)

/-- `QNum::set`. -/
def set (q : QNum) (m : Nat) (v : ℝ) : QNum :=
  let ret := q
  let ret := if cassette.eq m 0 then { ret with r := v } else ret
  let ret := if cassette.eq m 1 then { ret with i := v } else ret
  let ret := if cassette.eq m 2 then { ret with j := v } else ret
  let ret := if cassette.eq m 3 then { ret with k := v } else ret
  ret

end QNum

/-- src/lib.rs: `pub enum Nums {Real(f32), Complex(CNum), Quaternion(QNum)}`. -/
inductive Nums where
  | Real (re : ℝ)
  | Complex (cnum : CNum)
  | Quaternion (qnum : QNum)

/-- The tag of a `Nums` value (which variant it is). -/
inductive Variant where
  | real
  | complex
  | quaternion
deriving DecidableEq

/-- The wider of two variants, as §3 of the spec orders them:
Real ⊕ Complex → Complex, anything ⊕ Quaternion → Quaternion. -/
def Variant.wider : Variant → Variant → Variant
  | .real, .real => .real
  | .real, .complex => .complex
  | .real, .quaternion => .quaternion
  | .complex, .real => .complex
  | .complex, .complex => .complex
  | .complex, .quaternion => .quaternion
  | .quaternion, .real => .quaternion
  | .quaternion, .complex => .quaternion
  | .quaternion, .quaternion => .quaternion

namespace Nums

/-- Which variant a `Nums` value is. -/
def variant : Nums → Variant
  | .Real _ => .real
  | .Complex _ => .complex
  | .Quaternion _ => .quaternion

/-- `Nums::conj`. -/
def conj : Nums → Nums
  | .Real re => .Real re
  | .Complex cnum => .Complex cnum.conj
  | .Quaternion qnum => .Quaternion qnum.conj

open Classical in
/-- `Nums::normalize`: divide each component by the Euclidean norm of the
tuple.  The source returns `(f32::NAN, f32::NAN, f32::NAN)` when the norm is
zero; that sentinel is modelled by `none`. -/
def normalize (o : ℝ × ℝ × ℝ) : Option (ℝ × ℝ × ℝ) :=
  let m := powf (o.1 * o.1 + o.2.1 * o.2.1 + o.2.2 * o.2.2) 0.5
  if m = 0 then none
  else some (o.1 / m, o.2.1 / m, o.2.2 / m)

/-- `Nums::rot`.  The quaternion branch asserts that the normalized axis is
not the NaN sentinel (`assert!(!o.0.is_nan())`); the firing assert (a panic)
is modelled by `none`. -/
def rot (x : Nums) (ang : ℝ) (o : ℝ × ℝ × ℝ) : Option Nums :=
  let o := normalize o
  match x with
  | .Real re => some (.Real re)
  | .Complex cnum => some (.Complex (cnum.pow (ang / 90)))
  | .Quaternion qnum =>
    match o with
    | none => none
    | some v =>
      let q := QNum.make_from_a (ang * Real.pi / 180) v
      some (.Quaternion ((q.mult_q qnum).mult_q q.conj))

/-- `Nums::set`. -/
def set (x : Nums) (c : Nat) (v : ℝ) : Nums :=
  match x with
  | .Real re => .Real re
  | .Complex cnum => .Complex (cnum.set c v)
  | .Quaternion qnum => .Quaternion (qnum.set c v)

/-- `PartialEq for Nums` (src/lib.rs), as a proposition.  The leaf
comparisons are `PartialEq for CNum`/`QNum`: `self.get() == other.get()`. -/
def eq : Nums → Nums → Prop
  | .Real re, .Real re1 => re1 = re
  | .Real _, _ => False
  | .Complex cnum, .Complex cnum1 => cnum.get = cnum1.get
  | .Complex _, _ => False
  | .Quaternion qnum, .Quaternion qnum1 => qnum.get = qnum1.get
  | .Quaternion _, _ => False

/-- `Add for Nums` (src/lib.rs). -/
def add : Nums → Nums → Nums
  | .Real re, .Real re1 => .Real (re + re1)
  | .Real re, .Complex cnum => .Complex (cnum.add_r re)
  | .Real re, .Quaternion qnum => .Quaternion (qnum.add_r re)
  | .Complex cnum, .Real re => .Complex (cnum.add_r re)
  | .Complex cnum, .Complex cnum1 => .Complex (cnum.add_c cnum1)
  | .Complex cnum, .Quaternion qnum => .Quaternion (qnum.add_c cnum)
  | .Quaternion qnum, .Real re => .Quaternion (qnum.add_r re)
  | .Quaternion qnum, .Complex cnum => .Quaternion (qnum.add_c cnum)
  | .Quaternion qnum, .Quaternion qnum1 => .Quaternion (qnum.add_q qnum1)

/-- `Mul for Nums` (src/lib.rs).  Note the mixed `Complex * Quaternion` case
is `qnum.mult_c(cnum.clone())`: the quaternion ends up on the left. -/
def mul : Nums → Nums → Nums
  | .Real re, .Real re1 => .Real (re * re1)
  | .Real re, .Complex cnum => .Complex (cnum.mult_r re)
  | .Real re, .Quaternion qnum => .Quaternion (qnum.mult_r re)
  | .Complex cnum, .Real re => .Complex (cnum.mult_r re)
  | .Complex cnum, .Complex cnum1 => .Complex (cnum.mult_c cnum1)
  | .Complex cnum, .Quaternion qnum => .Quaternion (qnum.mult_c cnum)
  | .Quaternion qnum, .Real re => .Quaternion (qnum.mult_r re)
  | .Quaternion qnum, .Complex cnum => .Quaternion (qnum.mult_c cnum)
  | .Quaternion qnum, .Quaternion qnum1 => .Quaternion (qnum.mult_q qnum1)

/-- `Neg for Nums`: `self.mul(Nums::Real(-1))`. -/
def neg (x : Nums) : Nums := x.mul (.Real (-1))

end Nums

/-! ## Helper lemmas -/

/-- `x.powf(0.5)` is the real square root. -/
theorem powf_half (x : ℝ) : powf x 0.5 = Real.sqrt x := by
  rw [powf, show (0.5 : ℝ) = 1 / 2 by norm_num, ← Real.sqrt_eq_rpow]

/-- The real part of `v * conj(v)` is the squared modulus. -/
theorem CNum.modl_sq (v : CNum) : v.modl ^ 2 = (v.mult_c v.conj).r := by
  rw [CNum.modl, powf_half]
  apply Real.sq_sqrt
  simp only [CNum.mult_c, CNum.conj, CNum.get]
  nlinarith [sq_nonneg v.r, sq_nonneg v.i]

/-- `cassette.eq` reads bit `idx`: quotient by `2 ^ idx`, then parity. -/
theorem cassette_eq_div (m idx : Nat) : cassette.eq m idx = (m / 2 ^ idx % 2 != 0) := by
  rw [cassette.eq, Nat.shiftRight_eq_div_pow, Nat.and_one_is_mod]

/-! ## Claims -/

/-- Claim C1, counterexample: `Nums::Complex(i) * Nums::Quaternion(j)` is the
quaternion `-k`, not the Hamilton product `i * j = k` of `i` (as a quaternion
with `j = k = 0`) on the left with `j` on the right. -/
theorem C1_counterexample :
    Nums.mul (.Complex (CNum.make 0 1)) (.Quaternion (QNum.make_from_r 0 0 1 0)) ≠
      .Quaternion ((QNum.make_from_c (CNum.make 0 1) CNum.make_zero).mult_q
        (QNum.make_from_r 0 0 1 0)) := by
  intro h
  simp only [Nums.mul, QNum.mult_c, QNum.mult_q, QNum.make_from_r, QNum.make_from_c,
    CNum.make, CNum.make_zero, CNum.get, QNum.get, Nums.Quaternion.injEq,
    QNum.mk.injEq] at h
  norm_num at h

/-- Claim C1, amended: for every complex number `c` and quaternion `q`,
`Nums::Complex(c) * Nums::Quaternion(q)` is the Hamilton product taken with
the operands swapped: `q` on the left times `c` (treated as a quaternion with
`j = k = 0`) on the right. -/
theorem C1_complex_times_quaternion (c : CNum) (q : QNum) :
    Nums.mul (.Complex c) (.Quaternion q) =
      .Quaternion (q.mult_q (QNum.make_from_c c CNum.make_zero)) := by
  cases c with
  | mk cr ci =>
    cases q with
    | mk r i j k =>
      simp only [Nums.mul, QNum.mult_c, QNum.mult_q, QNum.make_from_c, CNum.make_zero,
        CNum.get, QNum.get, Nums.Quaternion.injEq, QNum.mk.injEq]
      refine ⟨by ring, by ring, by ring, by ring⟩

/-- Claim C4: over all 9 ordered pairs of variants, `add` and `mul` return a
value in the wider of the two variants. -/
theorem C4_promotion (x y : Nums) :
    (x.add y).variant = x.variant.wider y.variant ∧
      (x.mul y).variant = x.variant.wider y.variant := by
  cases x <;> cases y <;> exact ⟨rfl, rfl⟩

/-- Claim C7: conjugation is an involution on `CNum` and on `QNum`. -/
theorem C7_conj_involution :
    (∀ c : CNum, c.conj.conj = c) ∧ (∀ q : QNum, q.conj.conj = q) := by
  constructor
  · intro c
    cases c with
    | mk r i => simp [CNum.conj]
  · intro q
    cases q with
    | mk r i j k => simp [QNum.conj]

/-- Claim C2: rotating a quaternion by `a` degrees about an axis of nonzero
Euclidean norm is the sandwich product `q * v * conj(q)` for the rotation
quaternion `q` built from `a` in radians and the normalized axis; rotating
`(0,1,0,0)` by 90 degrees about `(0,0,1)` yields `(0,0,1,0)` within `1e-6`. -/
theorem C2_quaternion_rotation (v : QNum) (a x y z : ℝ)
    (h : Real.sqrt (x * x + y * y + z * z) ≠ 0) :
    (Nums.rot (.Quaternion v) a (x, y, z) =
      some (.Quaternion
        (((QNum.make_from_a (a * Real.pi / 180)
              (x / Real.sqrt (x * x + y * y + z * z),
               y / Real.sqrt (x * x + y * y + z * z),
               z / Real.sqrt (x * x + y * y + z * z))).mult_q v).mult_q
          (QNum.make_from_a (a * Real.pi / 180)
              (x / Real.sqrt (x * x + y * y + z * z),
               y / Real.sqrt (x * x + y * y + z * z),
               z / Real.sqrt (x * x + y * y + z * z))).conj))) ∧
    (∃ w, Nums.rot (.Quaternion (QNum.make_from_r 0 1 0 0)) 90 (0, 0, 1) =
        some (.Quaternion w) ∧
      |w.r - 0| < 1e-6 ∧ |w.i - 0| < 1e-6 ∧ |w.j - 1| < 1e-6 ∧ |w.k - 0| < 1e-6) := by
  constructor
  · simp only [Nums.rot, Nums.normalize, powf_half]
    rw [if_neg h]
  · have e1 : Nums.normalize ((0 : ℝ), (0 : ℝ), (1 : ℝ)) = some (0, 0, 1) := by
      simp only [Nums.normalize, powf_half]
      norm_num
    have hc : (90 : ℝ) * Real.pi / 180 / 2 = Real.pi / 4 := by ring
    have h2 : Real.sqrt 2 * Real.sqrt 2 = 2 := Real.mul_self_sqrt (by norm_num)
    refine ⟨⟨0, 0, 1, 0⟩, ?_, by norm_num, by norm_num, by norm_num, by norm_num⟩
    simp only [Nums.rot, e1, QNum.make_from_a, QNum.make_from_r, QNum.mult_q,
      QNum.conj, QNum.get, hc, Real.cos_pi_div_four, Real.sin_pi_div_four,
      Option.some.injEq, Nums.Quaternion.injEq, QNum.mk.injEq]
    refine ⟨by ring, by ring, by linear_combination h2 / 2, by ring⟩

/-- Claim C2, witness: the axis `(0,0,1)` has nonzero Euclidean norm, and the
rotation claim holds there for the quaternion `(0,1,0,0)` and 90 degrees. -/
theorem C2_witness :
    Real.sqrt ((0 : ℝ) * 0 + 0 * 0 + 1 * 1) ≠ 0 ∧
    ((Nums.rot (.Quaternion (QNum.make_from_r 0 1 0 0)) 90 (0, 0, 1) =
      some (.Quaternion
        (((QNum.make_from_a (90 * Real.pi / 180)
              (0 / Real.sqrt ((0 : ℝ) * 0 + 0 * 0 + 1 * 1),
               0 / Real.sqrt ((0 : ℝ) * 0 + 0 * 0 + 1 * 1),
               1 / Real.sqrt ((0 : ℝ) * 0 + 0 * 0 + 1 * 1))).mult_q
            (QNum.make_from_r 0 1 0 0)).mult_q
          (QNum.make_from_a (90 * Real.pi / 180)
              (0 / Real.sqrt ((0 : ℝ) * 0 + 0 * 0 + 1 * 1),
               0 / Real.sqrt ((0 : ℝ) * 0 + 0 * 0 + 1 * 1),
               1 / Real.sqrt ((0 : ℝ) * 0 + 0 * 0 + 1 * 1))).conj))) ∧
    (∃ w, Nums.rot (.Quaternion (QNum.make_from_r 0 1 0 0)) 90 (0, 0, 1) =
        some (.Quaternion w) ∧
      |w.r - 0| < 1e-6 ∧ |w.i - 0| < 1e-6 ∧ |w.j - 1| < 1e-6 ∧ |w.k - 0| < 1e-6)) :=
  ⟨by norm_num, C2_quaternion_rotation (QNum.make_from_r 0 1 0 0) 90 0 0 1 (by norm_num)⟩

/-- Claim C3: rotating a quaternion about an axis whose Euclidean norm is zero
fails fast — the `assert!` in the quaternion branch fires (modelled `none`)
instead of a value with NaN components being returned. -/
theorem C3_zero_axis_aborts (v : QNum) (a x y z : ℝ)
    (h : Real.sqrt (x * x + y * y + z * z) = 0) :
    Nums.rot (.Quaternion v) a (x, y, z) = none := by
  simp only [Nums.rot, Nums.normalize, powf_half]
  rw [if_pos h]

/-- Claim C3, witness: the zero axis has zero Euclidean norm, and rotating the
zero quaternion about it aborts. -/
theorem C3_witness :
    Real.sqrt ((0 : ℝ) * 0 + 0 * 0 + 0 * 0) = 0 ∧
      Nums.rot (.Quaternion QNum.make_zero) 0 (0, 0, 0) = none :=
  ⟨by norm_num, C3_zero_axis_aborts QNum.make_zero 0 0 0 0 (by norm_num)⟩

/-- Claim C5: `div_c` multiplies by the conjugate of the divisor and scales by
the reciprocal of its squared modulus; `(3+2i) / (5+3i) = 21/34 + (1/34)i`. -/
theorem C5_complex_division :
    (∀ u v : CNum, u.div_c v = (u.mult_c v.conj).mult_r (1 / v.modl ^ 2)) ∧
      (CNum.make 3 2).div_c (CNum.make 5 3) = CNum.make (21 / 34) (1 / 34) := by
  constructor
  · intro u v
    rw [CNum.div_c, CNum.modl_sq]
  · simp only [CNum.div_c, CNum.mult_c, CNum.mult_r, CNum.conj, CNum.make, CNum.get,
      CNum.mk.injEq]
    norm_num

/-- Claim C6: the modulus of every complex number and every quaternion is
nonnegative, and the modulus of the zero value is 0. -/
theorem C6_modulus_nonneg :
    (∀ c : CNum, 0 ≤ c.modl) ∧ (∀ q : QNum, 0 ≤ q.modl) ∧
      CNum.make_zero.modl = 0 ∧ QNum.make_zero.modl = 0 := by
  refine ⟨fun c => ?_, fun q => ?_, ?_, ?_⟩
  · rw [CNum.modl, powf_half]; exact Real.sqrt_nonneg _
  · rw [QNum.modl, powf_half]; exact Real.sqrt_nonneg _
  · rw [CNum.modl, powf_half]
    simp only [CNum.mult_c, CNum.conj, CNum.make_zero, CNum.get]
    norm_num
  · rw [QNum.modl, powf_half, QNum.norm]
    simp only [QNum.mult_q, QNum.conj, QNum.make_zero, QNum.get]
    norm_num

/-- Claim C8: `set` with a mask OR-combined from the named component flags
overwrites exactly the flagged components and leaves the others untouched. -/
theorem C8_set_mask :
    (∀ (c : CNum) (v : ℝ) (b0 b1 : Bool),
      ((c.set ((if b0 then complex.R else 0) ||| (if b1 then complex.I else 0)) v).r =
          if b0 then v else c.r) ∧
      ((c.set ((if b0 then complex.R else 0) ||| (if b1 then complex.I else 0)) v).i =
          if b1 then v else c.i)) ∧
    (∀ (q : QNum) (v : ℝ) (b0 b1 b2 b3 : Bool),
      ((q.set ((if b0 then quaternion.R else 0) ||| (if b1 then quaternion.I else 0) |||
          (if b2 then quaternion.J else 0) ||| (if b3 then quaternion.K else 0)) v).r =
          if b0 then v else q.r) ∧
      ((q.set ((if b0 then quaternion.R else 0) ||| (if b1 then quaternion.I else 0) |||
          (if b2 then quaternion.J else 0) ||| (if b3 then quaternion.K else 0)) v).i =
          if b1 then v else q.i) ∧
      ((q.set ((if b0 then quaternion.R else 0) ||| (if b1 then quaternion.I else 0) |||
          (if b2 then quaternion.J else 0) ||| (if b3 then quaternion.K else 0)) v).j =
          if b2 then v else q.j) ∧
      ((q.set ((if b0 then quaternion.R else 0) ||| (if b1 then quaternion.I else 0) |||
          (if b2 then quaternion.J else 0) ||| (if b3 then quaternion.K else 0)) v).k =
          if b3 then v else q.k)) := by
  constructor
  · intro c v b0 b1
    cases b0 <;> cases b1 <;> exact ⟨rfl, rfl⟩
  · intro q v b0 b1 b2 b3
    cases b0 <;> cases b1 <;> cases b2 <;> cases b3 <;> exact ⟨rfl, rfl, rfl, rfl⟩

/-- Claim C10: `set` ignores mask bits with no corresponding component — a
mask with bits 0 and 1 clear leaves a complex number unchanged, and a mask
with bits 0 through 3 clear leaves a quaternion unchanged. -/
theorem C10_set_ignores_high_bits :
    (∀ (c : CNum) (v : ℝ) (m : Nat), m % 4 = 0 → c.set m v = c) ∧
      (∀ (q : QNum) (v : ℝ) (m : Nat), m % 16 = 0 → q.set m v = q) := by
  constructor
  · intro c v m h
    have h0 : cassette.eq m 0 = false := by
      rw [cassette_eq_div]; simp only [bne_eq_false_iff_eq]; omega
    have h1 : cassette.eq m 1 = false := by
      rw [cassette_eq_div]; simp only [bne_eq_false_iff_eq]; omega
    simp [CNum.set, h0, h1]
  · intro q v m h
    have h0 : cassette.eq m 0 = false := by
      rw [cassette_eq_div]; simp only [bne_eq_false_iff_eq]; omega
    have h1 : cassette.eq m 1 = false := by
      rw [cassette_eq_div]; simp only [bne_eq_false_iff_eq]; omega
    have h2 : cassette.eq m 2 = false := by
      rw [cassette_eq_div]; simp only [bne_eq_false_iff_eq]; omega
    have h3 : cassette.eq m 3 = false := by
      rw [cassette_eq_div]; simp only [bne_eq_false_iff_eq]; omega
    simp [QNum.set, h0, h1, h2, h3]

/-- Claim C10, witness: the mask 4 (bit 2 only) leaves a complex number
unchanged; the mask 16 (bit 4 only) leaves a quaternion unchanged. -/
theorem C10_witness :
    CNum.set (CNum.make 1 2) 4 5 = CNum.make 1 2 ∧
      QNum.set (QNum.make_from_r 1 2 3 4) 16 5 = QNum.make_from_r 1 2 3 4 :=
  ⟨C10_set_ignores_high_bits.1 _ _ _ (by norm_num),
   C10_set_ignores_high_bits.2 _ _ _ (by norm_num)⟩

/-- Claim C9: equality on `Nums` compares variants first — two values of
different variants are never equal. -/
theorem C9_eq_variant (x y : Nums) (h : x.variant ≠ y.variant) : ¬ Nums.eq x y := by
  cases x <;> cases y <;> first
    | exact absurd rfl h
    | simp [Nums.eq]

/-- Claim C9, witness: `Nums::Real(1.0)` and `Nums::Complex(CNum::make(1.0, 0.0))`
have different variants, hence are not equal. -/
theorem C9_witness :
    (Nums.Real 1).variant ≠ (Nums.Complex (CNum.make 1 0)).variant ∧
      ¬ Nums.eq (.Real 1) (.Complex (CNum.make 1 0)) :=
  ⟨by simp [Nums.variant], C9_eq_variant _ _ (by simp [Nums.variant])⟩

end

end Tmn
